import Mathlib

/-!
Verification of the `calltimer` Go package (`timer.go`) against its
natural-language specification.

Shallow embedding notes:

* `time.Duration` is a signed 64-bit count of nanoseconds and `CalledTimes`
  is a Go `int` (64 bits on the platforms at hand); both fields are carried
  as `Int` values kept inside the `int64` range `[-2^63, 2^63)`, and the
  wrapping Go additions `TotalElapsed += d` and `CalledTimes++` are modelled
  by the two's-complement reduction `wrap64` (Go defines signed integer
  overflow to wrap).
* Go renders a `time.Duration` with `fmt`'s `%v` verb, i.e. via
  `Duration.String()` ("10.5ms", "1s", ...).  No claim depends on the exact
  text of a rendered duration, only on its string length and on where it is
  placed, so the rendering functions are parameterised by an arbitrary
  formatter `durStr : Int → String`.  A concrete instance `durStr0` is used
  for closed evaluations.
* Each `fmt.Fprint*` sequence of the Go code ends a line with `Fprintln`;
  output is therefore modelled as a `List String` of complete lines.
* The per-timer mutex and the global mutex only serialise operations; the
  sequential semantics embedded here is the behaviour of the serialised
  operations.
* The Go `Timer` struct carries a non-owning `Parent` back-pointer that is
  written once in `New` and never read by logging or reporting; it is not
  part of the tree value below.  The registry (`timers` map and `roots`
  slice of the Go package) is modelled by `Registry` with the key set of the
  map and the root list as name lists; the display forest that reporting
  walks is passed to the rendering functions as a `List Timer` value.
-/

/-- Output format selector, Go `type Format int` with constants
`Table`, `PlainText`, `CSV`. -/
inductive Format where
  | Table
  | PlainText
  | CSV
deriving DecidableEq

/-- Go constant `leaderLabel = "Timer name"`. -/
def leaderLabel : String := "Timer name"

/-- Go constant `totalLabel = "Total time"`. -/
def totalLabel : String := "Total time"

/-- Go constant `callsLabel = "Nr. of calls"`. -/
def callsLabel : String := "Nr. of calls"

/-- Go constant `avgLabel = "Average time/call"`. -/
def avgLabel : String := "Average time/call"

/-- The `Timer` struct: name, accumulated `TotalElapsed` (an `int64` count
of nanoseconds), `CalledTimes` (a 64-bit Go `int`), and the ordered
`Children` slice.  Both counters are `Int` values kept in the `int64`
range by `wrap64` at each update. -/
inductive Timer where
  | mk (name : String) (totalElapsed : Int) (calledTimes : Int) (children : List Timer)

/-- Field accessor for `Timer.Name`. -/
def Timer.name : Timer → String
  | .mk n _ _ _ => n

/-- Field accessor for `Timer.TotalElapsed`. -/
def Timer.totalElapsed : Timer → Int
  | .mk _ tot _ _ => tot

/-- Field accessor for `Timer.CalledTimes`. -/
def Timer.calledTimes : Timer → Int
  | .mk _ _ cnt _ => cnt

/-- Field accessor for `Timer.Children`. -/
def Timer.children : Timer → List Timer
  | .mk _ _ _ cs => cs

/-- The timer value allocated by `New`:
`&Timer{Name: name, Children: []*Timer{}, Parent: parent}` — zero
measurement state. -/
def newTimer (name : String) : Timer := .mk name 0 0 []

/-- Go struct `reportLen`: the four maximal string lengths used for column
alignment. -/
structure reportLen where
  leaderLen : Nat
  totalLen : Nat
  callsLen : Nat
  avgLen : Nat
deriving DecidableEq

/-- The zero value `&reportLen{}`. -/
def reportLen.zero : reportLen := ⟨0, 0, 0, 0⟩

/-- The registry component of the package-level state: the key set of the
`timers` map and the `roots` slice (names in creation order).  The global
`Active` flag is passed to each operation explicitly. -/
structure Registry where
  timers : List String
  roots : List String
deriving DecidableEq

/-- The two creation errors of the package (section 7 of the spec). -/
inductive NewErr where
  | nameRequired
  | duplicateName
deriving DecidableEq

/-- Result of `New`: Go returns a `(*Timer, error)` pair.  `ok none` is the
`(nil, nil)` result, `ok (some name)` is a freshly created timer handle
(identified by its unique name), `err e` is a `(nil, e)` result. -/
inductive NewResult where
  | ok (handle : Option String)
  | err (e : NewErr)
deriving DecidableEq

/-- Go `func New(name string, parent *Timer) (*Timer, error)`.
Checks `Active`, looks the name up in `timers`, rejects an empty name, then
a duplicate, otherwise registers the new timer and appends it to `roots`
when `parent == nil` (a parent's `Children` slice is part of the display
forest, modelled separately). -/
def New (active : Bool) (name : String) (parent : Option String) (s : Registry) :
    NewResult × Registry :=
  if !active then (.ok none, s)
  else
    let ok := s.timers.contains name
    if name = "" then (.err .nameRequired, s)
    else if ok then (.err .duplicateName, s)
    else
      match parent with
      | none => (.ok (some name), ⟨s.timers ++ [name], s.roots ++ [name]⟩)
      | some _ => (.ok (some name), ⟨s.timers ++ [name], s.roots⟩)

/-- Go `func MustNew(name string, parent *Timer) *Timer`: returns `nil`
when `Active` is false, otherwise calls `New` and panics on error.  The
outer `Option` is the panic: `none` models the panic, `some h` a normal
return of handle `h`. -/
def MustNew (active : Bool) (name : String) (parent : Option String) (s : Registry) :
    Option (Option String) × Registry :=
  if !active then (some none, s)
  else
    match New active name parent s with
    | (.ok t, s') => (some t, s')
    | (.err _, s') => (none, s')

/-- Two's-complement reduction into the `int64` range `[-2^63, 2^63)`:
the value of a wrapping Go `int64` addition.  The literals are `2^63` and
`2^64`. -/
def wrap64 (x : Int) : Int :=
  (x + 9223372036854775808) % 18446744073709551616 - 9223372036854775808

/-- Go `func (t *Timer) LogDuration(d time.Duration)`: when `Active`, adds
`d` to `TotalElapsed` and increments `CalledTimes`.  Both are wrapping
64-bit additions in Go, hence the `wrap64` reductions. -/
def Timer.LogDuration (active : Bool) : Timer → Int → Timer
  | .mk n tot cnt cs, d =>
    if !active then .mk n tot cnt cs
    else .mk n (wrap64 (tot + d)) (wrap64 (cnt + 1)) cs

mutual

/-- Go `func (t *Timer) hasActivity() bool`: true when some child has
activity or the timer's own total is strictly positive. -/
def Timer.hasActivity : Timer → Bool
  | .mk _ tot _ cs => hasActivityList cs || decide (0 < tot)

/-- The `for _, c := range t.Children` loop of `hasActivity`. -/
def hasActivityList : List Timer → Bool
  | [] => false
  | c :: cs => c.hasActivity || hasActivityList cs

end

/-- The average `t.TotalElapsed / time.Duration(t.CalledTimes)`: Go `int64`
division truncates toward zero, i.e. `Int.tdiv`.  Every call site guards
with `t.CalledTimes > 0`. -/
def Timer.avgElapsed (t : Timer) : Int :=
  t.totalElapsed.tdiv t.calledTimes

section Rendering

variable (durStr : Int → String)

mutual

/-- Go `calculateLengths`: skips a subtree without activity, folds the four
maxima over the node and then over its children at `level+1`. -/
def Timer.calculateLengths : Timer → reportLen → Nat → reportLen
  | .mk n tot cnt cs, lengths, level =>
    let t := Timer.mk n tot cnt cs
    if !t.hasActivity then lengths
    else
      let l1 : reportLen :=
        { leaderLen := max lengths.leaderLen (level * 2 + t.name.length)
          totalLen := max lengths.totalLen (durStr t.totalElapsed).length
          callsLen := max lengths.callsLen (toString t.calledTimes).length
          avgLen :=
            if 0 < t.calledTimes then
              max lengths.avgLen (durStr t.avgElapsed).length
            else lengths.avgLen }
      calculateLengthsList cs l1 (level + 1)

/-- The `for _, c := range t.Children` loop of `calculateLengths`. -/
def calculateLengthsList : List Timer → reportLen → Nat → reportLen
  | [], lengths, _ => lengths
  | c :: cs, lengths, level => calculateLengthsList cs (c.calculateLengths lengths level) level

end

/-- A run of `n` spaces, as printed by the indentation and padding loops. -/
def spaces (n : Nat) : String := String.mk (List.replicate n ' ')

/-- A run of `n` dashes, as printed by the `ruler` closure. -/
def dashes (n : Nat) : String := String.mk (List.replicate n '-')

/-- Go's `fmt.Fprintf` `%*v` verb: right-justify `s` in width `w` (a string
longer than `w` is printed unchanged). -/
def padLeft (w : Nat) (s : String) : String := spaces (w - s.length) ++ s

/-- The column-label maximum taken at `lev == 0` of `reportTable` (the Go
code updates the shared `reportLen` in place before printing anything; the
update is idempotent, so each root applying it yields the same widths). -/
def labelMax (rLen : reportLen) : reportLen :=
  { leaderLen := max rLen.leaderLen leaderLabel.length
    totalLen := max rLen.totalLen totalLabel.length
    callsLen := max rLen.callsLen callsLabel.length
    avgLen := max rLen.avgLen avgLabel.length }

/-- The `+---+---+---+---+` line printed by the `ruler` closure of
`reportTable`. -/
def rulerLine (rLen : reportLen) : String :=
  "+" ++ dashes (rLen.leaderLen + 2) ++ "+" ++ dashes (rLen.totalLen + 2) ++
    "+" ++ dashes (rLen.callsLen + 2) ++ "+" ++ dashes (rLen.avgLen + 2) ++ "+"

/-- The header row of `reportTable`. -/
def tableHeaderRow (rLen : reportLen) : String :=
  "| " ++ padLeft rLen.leaderLen leaderLabel ++ " | " ++ padLeft rLen.totalLen totalLabel ++
    " | " ++ padLeft rLen.callsLen callsLabel ++ " | " ++ padLeft rLen.avgLen avgLabel ++ " |"

/-- The leader of a table or plain-text row: `lev` double-space indents, the
name, then the padding loop
`for printed := lev*2 + len(t.Name); printed <= rLen.leaderLen; printed++`,
which emits `rLen.leaderLen + 1 - (lev*2 + len(name))` spaces (none when the
leader is already longer). -/
def leader (rLen : reportLen) (t : Timer) (lev : Nat) : String :=
  spaces (lev * 2) ++ t.name ++ spaces ((rLen.leaderLen + 1) - (lev * 2 + t.name.length))

/-- The CSV header line printed at `lev == 0` of `reportCSV`. -/
def csvHeader : String := "Timer;Total;Calls;Average"

section Rows

variable (durStr : Int → String)

/-- One data row of `reportTable`: the leader, then
`fmt.Fprintf(wr, "| %*v | %*v | %*v |", ...)` where the average cell is the
empty string unless `CalledTimes > 0`. -/
def tableRow (rLen : reportLen) (t : Timer) (lev : Nat) : String :=
  "| " ++ leader rLen t lev ++ "| " ++ padLeft rLen.totalLen (durStr t.totalElapsed) ++
    " | " ++ padLeft rLen.callsLen (toString t.calledTimes) ++ " | " ++
    padLeft rLen.avgLen (if 0 < t.calledTimes then durStr t.avgElapsed else "") ++ " |"

/-- One row of `reportPlainText`: the leader, then
`"total %*v in %*v calls"`, then `", avg %*v"` only when
`CalledTimes > 0`. -/
def plainRow (rLen : reportLen) (t : Timer) (lev : Nat) : String :=
  leader rLen t lev ++ "total " ++ padLeft rLen.totalLen (durStr t.totalElapsed) ++
    " in " ++ padLeft rLen.callsLen (toString t.calledTimes) ++ " calls" ++
    (if 0 < t.calledTimes then ", avg " ++ padLeft rLen.avgLen (durStr t.avgElapsed) else "")

/-- One data line of `reportCSV`: `"%v;%v;%v;"` then the average only when
`CalledTimes > 0`. -/
def csvRow (t : Timer) : String :=
  t.name ++ ";" ++ durStr t.totalElapsed ++ ";" ++ toString t.calledTimes ++ ";" ++
    (if 0 < t.calledTimes then durStr t.avgElapsed else "")

mutual

/-- Go `reportTable`: at `lev == 0` raises the shared widths to the column
labels, prints ruler/header/ruler, the node's row, the children at
`lev+1`, and a closing ruler. -/
def Timer.reportTable : Timer → Nat → reportLen → List String
  | .mk n tot cnt cs, lev, rLen =>
    let t := Timer.mk n tot cnt cs
    if lev = 0 then
      let rLen' := labelMax rLen
      rulerLine rLen' :: tableHeaderRow rLen' :: rulerLine rLen' ::
        tableRow durStr rLen' t lev :: (reportTableList cs (lev + 1) rLen' ++ [rulerLine rLen'])
    else
      tableRow durStr rLen t lev :: reportTableList cs (lev + 1) rLen

/-- The `for _, c := range t.Children` loop of `reportTable`. -/
def reportTableList : List Timer → Nat → reportLen → List String
  | [], _, _ => []
  | c :: cs, lev, rLen => c.reportTable lev rLen ++ reportTableList cs lev rLen

end

mutual

/-- Go `reportPlainText`: the node's row, then the children.  The Go loop
recurses through `c.report(lev+1, rLen, wr)`, which dispatches on the
global `OutputFormat`; during a plain-text report that dispatch selects
`reportPlainText` again, so the recursion is inlined here. -/
def Timer.reportPlainText : Timer → Nat → reportLen → List String
  | .mk n tot cnt cs, lev, rLen =>
    let t := Timer.mk n tot cnt cs
    plainRow durStr rLen t lev :: reportPlainTextList cs (lev + 1) rLen

/-- The `for _, c := range t.Children` loop of `reportPlainText`. -/
def reportPlainTextList : List Timer → Nat → reportLen → List String
  | [], _, _ => []
  | c :: cs, lev, rLen => c.reportPlainText lev rLen ++ reportPlainTextList cs lev rLen

end

mutual

/-- Go `reportCSV`: the header at `lev == 0`, the node's line, then the
children at `lev+1`. -/
def Timer.reportCSV : Timer → Nat → List String
  | .mk n tot cnt cs, lev =>
    let t := Timer.mk n tot cnt cs
    (if lev = 0 then [csvHeader] else []) ++ csvRow durStr t :: reportCSVList cs (lev + 1)

/-- The `for _, c := range t.Children` loop of `reportCSV`. -/
def reportCSVList : List Timer → Nat → List String
  | [], _ => []
  | c :: cs, lev => c.reportCSV lev ++ reportCSVList cs lev

end

/-- Go `report`: dispatch on the (global) output format. -/
def Timer.report (fmt : Format) (t : Timer) (lev : Nat) (rLen : reportLen) : List String :=
  match fmt with
  | .Table => t.reportTable durStr lev rLen
  | .PlainText => t.reportPlainText durStr lev rLen
  | .CSV => t.reportCSV durStr lev

/-- Go `reportWithFormatting`: skip a root without activity, otherwise
render it at level 0 with the shared widths. -/
def Timer.reportWithFormatting (fmt : Format) (t : Timer) (rLen : reportLen) : List String :=
  if !t.hasActivity then [] else t.report durStr fmt 0 rLen

/-- Go `func (t *Timer) Report(wr io.Writer)`: nothing when inactive or
without activity, otherwise compute this subtree's widths from a zero
`reportLen` and render at level 0. -/
def Timer.Report (active : Bool) (fmt : Format) (t : Timer) : List String :=
  if !active || !t.hasActivity then []
  else t.report durStr fmt 0 (t.calculateLengths durStr reportLen.zero 0)

/-- The width pre-pass of `ReportAll`: one `reportLen`, folded over every
root with `calculateLengths(rLen, 0)`. -/
def allLengths (roots : List Timer) : reportLen :=
  roots.foldl (fun rLen r => r.calculateLengths durStr rLen 0) reportLen.zero

/-- Go `func ReportAll(wr io.Writer)`: nothing when inactive; otherwise one
shared `reportLen` is computed over all roots and every root is rendered
with it via `reportWithFormatting`. -/
def ReportAll (active : Bool) (fmt : Format) (roots : List Timer) : List String :=
  if !active then []
  else roots.flatMap (fun r => r.reportWithFormatting durStr fmt (allLengths durStr roots))

end Rows

/-- A concrete duration formatter used for closed evaluations (the claims
under study do not depend on the exact text of a rendered duration). -/
def durStr0 : Int → String := fun d => toString d

mutual

/-- Specification-side traversal: the depth-first, node-before-children,
children-in-creation-order visit of a subtree, pairing each timer with its
depth.  The traversal order the spec asserts for all three formats. -/
def preorderLev : Timer → Nat → List (Timer × Nat)
  | .mk n tot cnt cs, lev => (Timer.mk n tot cnt cs, lev) :: preorderLevList cs (lev + 1)

/-- The children part of `preorderLev`. -/
def preorderLevList : List Timer → Nat → List (Timer × Nat)
  | [], _ => []
  | c :: cs, lev => preorderLev c lev ++ preorderLevList cs lev

end

mutual

/-- The nodes `calculateLengths` actually visits: the traversal pruned at
every node without activity. -/
def activeNodes : Timer → Nat → List (Timer × Nat)
  | .mk n tot cnt cs, lev =>
    let t := Timer.mk n tot cnt cs
    if !t.hasActivity then [] else (t, lev) :: activeNodesList cs (lev + 1)

/-- The children part of `activeNodes`. -/
def activeNodesList : List Timer → Nat → List (Timer × Nat)
  | [], _ => []
  | c :: cs, lev => activeNodes c lev ++ activeNodesList cs lev

end

/-- Number of non-data lines a level-0 block of each format adds around the
per-timer rows: table = ruler/header/ruler plus closing ruler, plain text =
none, CSV = its header line. -/
def headerOverhead : Format → Nat
  | .Table => 4
  | .PlainText => 0
  | .CSV => 1

/-- One step of the width maxima, as applied by `calculateLengths` to a
single visited node at its level. -/
def lenStep (durStr : Int → String) (lengths : reportLen) (p : Timer × Nat) : reportLen :=
  { leaderLen := max lengths.leaderLen (p.2 * 2 + p.1.name.length)
    totalLen := max lengths.totalLen (durStr p.1.totalElapsed).length
    callsLen := max lengths.callsLen (toString p.1.calledTimes).length
    avgLen :=
      if 0 < p.1.calledTimes then
        max lengths.avgLen (durStr p.1.avgElapsed).length
      else lengths.avgLen }

/-! ## General list helpers -/

/-- Pointwise congruence for `List.any` restricted to members. -/
theorem list_any_congr {α : Type} (l : List α) (p q : α → Bool)
    (h : ∀ x ∈ l, p x = q x) : l.any p = l.any q := by
  induction l with
  | nil => rfl
  | cons a l ih =>
    simp only [List.any_cons]
    rw [h a (by simp), ih (fun x hx => h x (by simp [hx]))]

/-- Pointwise congruence for `List.foldl` restricted to members. -/
theorem list_foldl_congr {α β : Type} (l : List α) (f g : β → α → β) (i : β)
    (h : ∀ x ∈ l, ∀ b, f b x = g b x) : l.foldl f i = l.foldl g i := by
  induction l generalizing i with
  | nil => rfl
  | cons a l ih =>
    simp only [List.foldl_cons]
    rw [h a (by simp), ih (g i a) (fun x hx => h x (by simp [hx]))]

/-- Folding over a `flatMap` is the nested fold. -/
theorem list_foldl_flatMap {α β γ : Type} (l : List α) (f : α → List γ)
    (step : β → γ → β) (i : β) :
    (l.flatMap f).foldl step i = l.foldl (fun acc a => (f a).foldl step acc) i := by
  induction l generalizing i with
  | nil => rfl
  | cons a l ih => simp only [List.flatMap_cons, List.foldl_append, List.foldl_cons, ih]

/-! ## Induction over the timer tree -/

/-- Structural induction for the nested inductive `Timer`, giving the
inductive hypothesis for every member of the children list. -/
theorem Timer.myInd (P : Timer → Prop)
    (h : ∀ n tot cnt cs, (∀ c ∈ cs, P c) → P (Timer.mk n tot cnt cs)) :
    ∀ t, P t :=
  fun t =>
    @Timer.rec P (fun cs => ∀ c ∈ cs, P c)
      (fun n tot cnt cs ih => h n tot cnt cs ih)
      (by simp)
      (fun hd tl ph pt => by
        intro c hc
        rcases List.mem_cons.mp hc with h1 | h2
        · exact h1 ▸ ph
        · exact pt c h2) t

/-! ## The loop helpers as list combinators -/

/-- The `hasActivity` children loop is `List.any`. -/
theorem hasActivityList_eq (cs : List Timer) :
    hasActivityList cs = cs.any Timer.hasActivity := by
  induction cs with
  | nil => rfl
  | cons c cs ih => simp only [hasActivityList, ih, List.any_cons]

/-- The children part of the specification traversal is a `flatMap`. -/
theorem preorderLevList_eq (cs : List Timer) (lev : Nat) :
    preorderLevList cs lev = cs.flatMap (fun c => preorderLev c lev) := by
  induction cs with
  | nil => rfl
  | cons c cs ih => simp only [preorderLevList, ih, List.flatMap_cons]

/-- The children part of the pruned traversal is a `flatMap`. -/
theorem activeNodesList_eq (cs : List Timer) (lev : Nat) :
    activeNodesList cs lev = cs.flatMap (fun c => activeNodes c lev) := by
  induction cs with
  | nil => rfl
  | cons c cs ih => simp only [activeNodesList, ih, List.flatMap_cons]

/-- The `reportCSV` children loop is a `flatMap`. -/
theorem reportCSVList_eq (durStr : Int → String) (cs : List Timer) (lev : Nat) :
    reportCSVList durStr cs lev = cs.flatMap (fun c => c.reportCSV durStr lev) := by
  induction cs with
  | nil => rfl
  | cons c cs ih => simp only [reportCSVList, ih, List.flatMap_cons]

/-- The `reportPlainText` children loop is a `flatMap`. -/
theorem reportPlainTextList_eq (durStr : Int → String) (cs : List Timer) (lev : Nat)
    (rLen : reportLen) :
    reportPlainTextList durStr cs lev rLen = cs.flatMap (fun c => c.reportPlainText durStr lev rLen) := by
  induction cs with
  | nil => rfl
  | cons c cs ih => simp only [reportPlainTextList, ih, List.flatMap_cons]

/-- The `reportTable` children loop is a `flatMap`. -/
theorem reportTableList_eq (durStr : Int → String) (cs : List Timer) (lev : Nat)
    (rLen : reportLen) :
    reportTableList durStr cs lev rLen = cs.flatMap (fun c => c.reportTable durStr lev rLen) := by
  induction cs with
  | nil => rfl
  | cons c cs ih => simp only [reportTableList, ih, List.flatMap_cons]

/-- The `calculateLengths` children loop is a `foldl`. -/
theorem calculateLengthsList_eq (durStr : Int → String) (cs : List Timer)
    (lengths : reportLen) (level : Nat) :
    calculateLengthsList durStr cs lengths level =
      cs.foldl (fun acc c => c.calculateLengths durStr acc level) lengths := by
  induction cs generalizing lengths with
  | nil => rfl
  | cons c cs ih => simp only [calculateLengthsList, ih, List.foldl_cons]

/-! ## The activity predicate -/

/-- `hasActivity` is the strict-positivity test over the whole subtree. -/
theorem hasActivity_eq_any :
    ∀ (t : Timer) (lev : Nat),
      t.hasActivity = (preorderLev t lev).any (fun p => decide (0 < p.1.totalElapsed)) := by
  intro t
  induction t using Timer.myInd with
  | h n tot cnt cs ih =>
    intro lev
    simp only [Timer.hasActivity, preorderLev, List.any_cons, hasActivityList_eq,
      preorderLevList_eq, List.any_flatMap]
    rw [list_any_congr cs _ _ (fun c hc => ih c hc (lev + 1))]
    exact Bool.or_comm _ _

/-- Propositional form of `hasActivity`, at level 0. -/
theorem hasActivity_iff (t : Timer) :
    t.hasActivity = true ↔ ∃ p ∈ preorderLev t 0, 0 < p.1.totalElapsed := by
  rw [hasActivity_eq_any t 0, List.any_eq_true]
  simp only [decide_eq_true_eq]

/-! ## Each format as a map over the traversal -/

/-- `reportCSV` is the CSV header (at level 0 only) followed by one data
line per node of the preorder traversal. -/
theorem csv_lines (durStr : Int → String) :
    ∀ (t : Timer) (lev : Nat),
      t.reportCSV durStr lev =
        (if lev = 0 then [csvHeader] else []) ++
          (preorderLev t lev).map (fun p => csvRow durStr p.1) := by
  intro t
  induction t using Timer.myInd with
  | h n tot cnt cs ih =>
    intro lev
    have hkids : reportCSVList durStr cs (lev + 1) =
        (preorderLevList cs (lev + 1)).map (fun p => csvRow durStr p.1) := by
      rw [reportCSVList_eq, preorderLevList_eq, List.map_flatMap]
      exact List.flatMap_congr (fun c hc => by simp [ih c hc (lev + 1)])
    simp only [Timer.reportCSV, preorderLev, List.map_cons, hkids]

/-- `reportPlainText` is one row per node of the preorder traversal. -/
theorem plain_lines (durStr : Int → String) (rLen : reportLen) :
    ∀ (t : Timer) (lev : Nat),
      t.reportPlainText durStr lev rLen =
        (preorderLev t lev).map (fun p => plainRow durStr rLen p.1 p.2) := by
  intro t
  induction t using Timer.myInd with
  | h n tot cnt cs ih =>
    intro lev
    have hkids : reportPlainTextList durStr cs (lev + 1) rLen =
        (preorderLevList cs (lev + 1)).map (fun p => plainRow durStr rLen p.1 p.2) := by
      rw [reportPlainTextList_eq, preorderLevList_eq, List.map_flatMap]
      exact List.flatMap_congr (fun c hc => by simp [ih c hc (lev + 1)])
    simp only [Timer.reportPlainText, preorderLev, List.map_cons, hkids]

/-- `reportTable` below the root level is one row per node of the preorder
traversal (no borders, no label adjustment). -/
theorem table_lines_pos (durStr : Int → String) :
    ∀ (t : Timer) (lev : Nat) (rLen : reportLen),
      t.reportTable durStr (lev + 1) rLen =
        (preorderLev t (lev + 1)).map (fun p => tableRow durStr rLen p.1 p.2) := by
  intro t
  induction t using Timer.myInd with
  | h n tot cnt cs ih =>
    intro lev rLen
    have hkids : reportTableList durStr cs (lev + 1 + 1) rLen =
        (preorderLevList cs (lev + 1 + 1)).map (fun p => tableRow durStr rLen p.1 p.2) := by
      rw [reportTableList_eq, preorderLevList_eq, List.map_flatMap]
      exact List.flatMap_congr (fun c hc => by simp [ih c hc (lev + 1)])
    simp only [Timer.reportTable, preorderLev, List.map_cons, hkids,
      Nat.succ_ne_zero, if_false]

/-- `reportTable` at the root level: the label-adjusted widths, the framed
header, one row per preorder node, and a closing ruler. -/
theorem table_lines_zero (durStr : Int → String) (t : Timer) (rLen : reportLen) :
    t.reportTable durStr 0 rLen =
      rulerLine (labelMax rLen) :: tableHeaderRow (labelMax rLen) ::
        rulerLine (labelMax rLen) ::
          ((preorderLev t 0).map (fun p => tableRow durStr (labelMax rLen) p.1 p.2) ++
            [rulerLine (labelMax rLen)]) := by
  cases t with
  | mk n tot cnt cs =>
    have hkids : reportTableList durStr cs 1 (labelMax rLen) =
        (preorderLevList cs 1).map (fun p => tableRow durStr (labelMax rLen) p.1 p.2) := by
      rw [reportTableList_eq, preorderLevList_eq, List.map_flatMap]
      exact List.flatMap_congr (fun c hc => by simp [table_lines_pos durStr c 0 (labelMax rLen)])
    simp only [Timer.reportTable, preorderLev, List.map_cons, hkids, if_true]
    simp [List.cons_append]

/-- Line count of a level-0 block: the per-format overhead plus one line
per node of the subtree. -/
theorem report_block_length (durStr : Int → String) (fmt : Format) (rLen : reportLen)
    (t : Timer) :
    (t.report durStr fmt 0 rLen).length = headerOverhead fmt + (preorderLev t 0).length := by
  cases fmt with
  | Table =>
    simp [Timer.report, table_lines_zero, headerOverhead]
    omega
  | PlainText =>
    simp [Timer.report, plain_lines, headerOverhead]
  | CSV =>
    simp [Timer.report, csv_lines, headerOverhead]
    omega

/-! ## The width pre-pass as a fold over the pruned traversal -/

/-- `calculateLengths` is the `lenStep` fold over exactly the nodes of the
activity-pruned traversal. -/
theorem calc_eq_fold (durStr : Int → String) :
    ∀ (t : Timer) (lengths : reportLen) (level : Nat),
      t.calculateLengths durStr lengths level =
        (activeNodes t level).foldl (lenStep durStr) lengths := by
  intro t
  induction t using Timer.myInd with
  | h n tot cnt cs ih =>
    intro lengths level
    by_cases hact : (Timer.mk n tot cnt cs).hasActivity
    · simp only [Timer.calculateLengths, activeNodes, hact, Bool.not_true, if_neg,
        Bool.false_eq_true, not_false_iff, List.foldl_cons]
      rw [calculateLengthsList_eq, activeNodesList_eq, list_foldl_flatMap]
      rw [list_foldl_congr cs _ _ _ (fun c hc => fun b => ih c hc b (level + 1))]
      rfl
    · simp only [Bool.not_eq_true] at hact
      simp [Timer.calculateLengths, activeNodes, hact]

/-- The `leaderLen` component of the fold is the running maximum of the
indentation-adjusted name widths. -/
theorem foldl_lenStep_leaderLen (durStr : Int → String) (ns : List (Timer × Nat)) :
    ∀ l : reportLen,
      (ns.foldl (lenStep durStr) l).leaderLen =
        ns.foldl (fun m p => max m (p.2 * 2 + p.1.name.length)) l.leaderLen := by
  induction ns with
  | nil => intro l; rfl
  | cons p ns ih => intro l; simp only [List.foldl_cons, ih, lenStep]

/-- The `totalLen` component of the fold is the running maximum of the
rendered total-duration widths. -/
theorem foldl_lenStep_totalLen (durStr : Int → String) (ns : List (Timer × Nat)) :
    ∀ l : reportLen,
      (ns.foldl (lenStep durStr) l).totalLen =
        ns.foldl (fun m p => max m (durStr p.1.totalElapsed).length) l.totalLen := by
  induction ns with
  | nil => intro l; rfl
  | cons p ns ih => intro l; simp only [List.foldl_cons, ih, lenStep]

/-- The `callsLen` component of the fold is the running maximum of the
rendered call-count widths. -/
theorem foldl_lenStep_callsLen (durStr : Int → String) (ns : List (Timer × Nat)) :
    ∀ l : reportLen,
      (ns.foldl (lenStep durStr) l).callsLen =
        ns.foldl (fun m p => max m (toString p.1.calledTimes).length) l.callsLen := by
  induction ns with
  | nil => intro l; rfl
  | cons p ns ih => intro l; simp only [List.foldl_cons, ih, lenStep]

/-- The `avgLen` component of the fold is the running maximum of the
rendered average widths, taken only over nodes with a nonzero call
count. -/
theorem foldl_lenStep_avgLen (durStr : Int → String) (ns : List (Timer × Nat)) :
    ∀ l : reportLen,
      (ns.foldl (lenStep durStr) l).avgLen =
        ns.foldl
          (fun m p => if 0 < p.1.calledTimes then max m (durStr p.1.avgElapsed).length else m)
          l.avgLen := by
  induction ns with
  | nil => intro l; rfl
  | cons p ns ih =>
    intro l
    by_cases hp : 0 < p.1.calledTimes <;> simp only [List.foldl_cons, ih, lenStep, hp, if_true, if_false]

/-- A running maximum is the fold of `max` over the mapped widths. -/
theorem foldl_max_map {α : Type} (ns : List α) (w : α → Nat) :
    ∀ a : Nat, ns.foldl (fun m x => max m (w x)) a = (ns.map w).foldl max a := by
  induction ns with
  | nil => intro a; rfl
  | cons x ns ih => intro a; simp only [List.foldl_cons, List.map_cons, ih]

/-- A conditional running maximum is the fold of `max` over the filtered,
mapped widths. -/
theorem foldl_max_filter {α : Type} (ns : List α) (q : α → Prop) [DecidablePred q]
    (w : α → Nat) :
    ∀ a : Nat,
      ns.foldl (fun m x => if q x then max m (w x) else m) a =
        ((ns.filter (fun x => decide (q x))).map w).foldl max a := by
  induction ns with
  | nil => intro a; rfl
  | cons x ns ih =>
    intro a
    by_cases hx : q x <;> simp [List.foldl_cons, List.filter_cons, hx, ih]

/-! ## Accumulation -/

/-- A single enabled `LogDuration` call on a destructured timer. -/
theorem logDuration_mk (n : String) (tot cnt : Int) (cs : List Timer) (d : Int) :
    Timer.LogDuration true (.mk n tot cnt cs) d =
      .mk n (wrap64 (tot + d)) (wrap64 (cnt + 1)) cs := by
  simp [Timer.LogDuration]

/-- `wrap64` always lands in the `int64` range. -/
theorem wrap64_mem_range (x : Int) :
    -9223372036854775808 ≤ wrap64 x ∧ wrap64 x < 9223372036854775808 := by
  unfold wrap64
  omega

/-- `wrap64` is the identity on values already in the `int64` range. -/
theorem wrap64_eq_self (x : Int) (h1 : -9223372036854775808 ≤ x)
    (h2 : x < 9223372036854775808) : wrap64 x = x := by
  unfold wrap64
  omega

/-- Reducing the left summand first does not change a wrapped sum. -/
theorem wrap64_add_left (a b : Int) : wrap64 (wrap64 a + b) = wrap64 (a + b) := by
  unfold wrap64
  omega

/-- Folding a list of enabled `LogDuration` calls over a timer whose
call count lies in the `int64` range adds the list length to the count,
modulo the `int64` wrap. -/
theorem logDuration_foldl_count (ds : List Int) :
    ∀ t : Timer,
      -9223372036854775808 ≤ t.calledTimes → t.calledTimes < 9223372036854775808 →
      (ds.foldl (fun a d => a.LogDuration true d) t).calledTimes =
        wrap64 (t.calledTimes + ds.length) := by
  induction ds with
  | nil =>
    intro t hc1 hc2
    simp [wrap64_eq_self _ hc1 hc2]
  | cons d ds ih =>
    intro t hc1 hc2
    cases t with
    | mk n tot cnt cs =>
      simp only [List.foldl_cons, logDuration_mk]
      rw [ih (.mk n (wrap64 (tot + d)) (wrap64 (cnt + 1)) cs)
        (wrap64_mem_range _).1 (wrap64_mem_range _).2]
      simp only [Timer.calledTimes, wrap64_add_left, List.length_cons]
      congr 1
      push_cast
      ring

/-- Folding a list of enabled `LogDuration` calls over a timer whose total
lies in the `int64` range adds the list sum to the total, modulo the
`int64` wrap. -/
theorem logDuration_foldl_total (ds : List Int) :
    ∀ t : Timer,
      -9223372036854775808 ≤ t.totalElapsed → t.totalElapsed < 9223372036854775808 →
      (ds.foldl (fun a d => a.LogDuration true d) t).totalElapsed =
        wrap64 (t.totalElapsed + ds.sum) := by
  induction ds with
  | nil =>
    intro t ht1 ht2
    simp [wrap64_eq_self _ ht1 ht2]
  | cons d ds ih =>
    intro t ht1 ht2
    cases t with
    | mk n tot cnt cs =>
      simp only [List.foldl_cons, logDuration_mk]
      rw [ih (.mk n (wrap64 (tot + d)) (wrap64 (cnt + 1)) cs)
        (wrap64_mem_range _).1 (wrap64_mem_range _).2]
      simp only [Timer.totalElapsed, wrap64_add_left, List.sum_cons]
      congr 1
      ring

/-! ## Small bridging facts -/

/-- `reportWithFormatting` keeps a root exactly when it has activity. -/
theorem reportWithFormatting_eq_if (durStr : Int → String) (fmt : Format) (r : Timer)
    (rLen : reportLen) :
    r.reportWithFormatting durStr fmt rLen =
      if r.hasActivity then r.report durStr fmt 0 rLen else [] := by
  cases hr : r.hasActivity <;> simp [Timer.reportWithFormatting, hr]

/-- The preorder traversal of a subtree is never empty (it contains the
subtree's root). -/
theorem preorderLev_length_pos (t : Timer) (lev : Nat) : 0 < (preorderLev t lev).length := by
  cases t with
  | mk n tot cnt cs => simp [preorderLev]

/-- The width pre-pass of `ReportAll` is the node-step fold over the
pruned traversals of all roots, concatenated. -/
theorem allLengths_eq (durStr : Int → String) (roots : List Timer) :
    allLengths durStr roots =
      (roots.flatMap (fun r => activeNodes r 0)).foldl (lenStep durStr) reportLen.zero := by
  rw [allLengths, list_foldl_congr roots _
    (fun rLen r => (activeNodes r 0).foldl (lenStep durStr) rLen) reportLen.zero
    (fun r _ b => calc_eq_fold durStr r b 0)]
  exact (list_foldl_flatMap roots _ _ _).symm

/-! ## Claims -/

/-- C1: with the system enabled, `New` with an empty name fails with
`NameRequired` regardless of the parent argument; `New` with an already
registered name fails with `DuplicateName`; and of two `New` calls with the
same (fresh, non-empty) name the first succeeds and the second receives
`DuplicateName` — and whenever any first call succeeds, a second call with
the same name fails with `DuplicateName`, so two successes are
impossible. -/
theorem new_name_and_uniqueness (s : Registry) (name : String)
    (parent p₁ p₂ : Option String) :
    (New true "" parent s).1 = .err .nameRequired ∧
    (name ≠ "" → s.timers.contains name = true →
      (New true name parent s).1 = .err .duplicateName) ∧
    (name ≠ "" → s.timers.contains name = false →
      (New true name p₁ s).1 = .ok (some name) ∧
      (New true name p₂ (New true name p₁ s).2).1 = .err .duplicateName) ∧
    (∀ h, (New true name p₁ s).1 = .ok (some h) →
      (New true name p₂ (New true name p₁ s).2).1 = .err .duplicateName) := by
  have hfresh : name ≠ "" → s.timers.contains name = false →
      (New true name p₁ s).1 = .ok (some name) ∧
      (New true name p₂ (New true name p₁ s).2).1 = .err .duplicateName := by
    intro hne hcon
    have hnotmem : name ∉ s.timers := by simpa using hcon
    cases p₁ <;> cases p₂ <;>
      simp [New, hne, hnotmem]
  refine ⟨by simp [New], ?_, hfresh, ?_⟩
  · intro hne hcon
    have hm : name ∈ s.timers := by simpa using hcon
    simp [New, hne, hm]
  · intro h hok
    by_cases hne : name = ""
    · rw [hne] at hok
      simp [New] at hok
    · by_cases hcon : s.timers.contains name
      · have hm : name ∈ s.timers := by simpa using hcon
        simp [New, hne, hm] at hok
      · exact (hfresh hne (by simpa using hcon)).2

/-- Witness for C1 at a concrete fresh registry. -/
theorem new_name_and_uniqueness_witness :
    (New true "x" none (Registry.mk [] [])).1 = .ok (some "x") ∧
    (New true "x" (some "x") (New true "x" none (Registry.mk [] [])).2).1 =
      .err .duplicateName :=
  (new_name_and_uniqueness (Registry.mk [] []) "x" none none (some "x")).2.2.1
    (by decide) (by decide)

/-- C2 counterexample: `TotalElapsed += d` is a wrapping `int64` addition
in Go, so two enabled calls each logging `2^62` nanoseconds (about 146
years of measured time per call — a single `LogDuration` call with such an
argument is instantaneous) overflow the total: afterwards it is `-2^63`,
not the sum `2^63`, refuting "TotalElapsed equals the sum of d_1..d_N" as
universally claimed. -/
theorem logDuration_overflow_cx :
    (([4611686018427387904, 4611686018427387904] : List Int).foldl
        (fun a x => a.LogDuration true x) (newTimer "t")).totalElapsed =
      -9223372036854775808 ∧
    ([4611686018427387904, 4611686018427387904] : List Int).sum = 9223372036854775808 ∧
    (([4611686018427387904, 4611686018427387904] : List Int).foldl
        (fun a x => a.LogDuration true x) (newTimer "t")).totalElapsed ≠
      ([4611686018427387904, 4611686018427387904] : List Int).sum := by
  refine ⟨by decide, by decide, by decide⟩

/-- C2 (amended): starting from a freshly created timer, a sequence of N
enabled `LogDuration` calls leaves the call count equal to N and the total
equal to the sum of the logged durations, each taken modulo the wrapping
`int64` arithmetic of Go; in the overflow-free regime — fewer than `2^63`
calls, and a sum of durations within the `int64` range — count and total
equal exactly N and exactly the sum; each single call adds exactly its
duration to the total and exactly one to the count, as wrapping `int64`
additions. -/
theorem logDuration_accumulates (name : String) (ds : List Int) (t : Timer) (d : Int) :
    ((ds.foldl (fun a x => a.LogDuration true x) (newTimer name)).calledTimes =
        wrap64 ds.length ∧
      (ds.foldl (fun a x => a.LogDuration true x) (newTimer name)).totalElapsed =
        wrap64 ds.sum) ∧
    ((ds.length : Int) < 9223372036854775808 →
      (ds.foldl (fun a x => a.LogDuration true x) (newTimer name)).calledTimes = ds.length) ∧
    (-9223372036854775808 ≤ ds.sum → ds.sum < 9223372036854775808 →
      (ds.foldl (fun a x => a.LogDuration true x) (newTimer name)).totalElapsed = ds.sum) ∧
    ((t.LogDuration true d).totalElapsed = wrap64 (t.totalElapsed + d) ∧
      (t.LogDuration true d).calledTimes = wrap64 (t.calledTimes + 1)) := by
  have hc : (newTimer name).calledTimes = 0 := rfl
  have ht : (newTimer name).totalElapsed = 0 := rfl
  have h1 := logDuration_foldl_count ds (newTimer name)
    (by rw [hc]; omega) (by rw [hc]; omega)
  have h2 := logDuration_foldl_total ds (newTimer name)
    (by rw [ht]; omega) (by rw [ht]; omega)
  rw [hc] at h1
  rw [ht] at h2
  simp only [zero_add] at h1 h2
  refine ⟨⟨h1, h2⟩, ?_, ?_, ?_⟩
  · intro hlen
    rw [h1, wrap64_eq_self _ (by omega) hlen]
  · intro hs1 hs2
    rw [h2, wrap64_eq_self _ hs1 hs2]
  · cases t with
    | mk n tot cnt cs =>
      simp [logDuration_mk, Timer.totalElapsed, Timer.calledTimes]

/-- Witness for C2 at a one-element duration list, discharging both
overflow-free hypotheses. -/
theorem logDuration_accumulates_witness :
    (([5] : List Int).foldl (fun a x => a.LogDuration true x) (newTimer "w")).calledTimes =
        (([5] : List Int).length : Int) ∧
      (([5] : List Int).foldl (fun a x => a.LogDuration true x) (newTimer "w")).totalElapsed =
        ([5] : List Int).sum :=
  ⟨(logDuration_accumulates "w" [5] (newTimer "w") 0).2.1 (by decide),
    (logDuration_accumulates "w" [5] (newTimer "w") 0).2.2.1 (by decide) (by decide)⟩

/-- C9: with the `Active` flag false, `New` returns the no-op `(nil, nil)`
result and leaves the registry untouched, `LogDuration` leaves the timer
unchanged, and `Report` and `ReportAll` emit nothing. -/
theorem inactive_noop (name : String) (parent : Option String) (s : Registry)
    (t : Timer) (d : Int) (durStr : Int → String) (fmt : Format) (roots : List Timer) :
    New false name parent s = (.ok none, s) ∧
    t.LogDuration false d = t ∧
    ReportAll durStr false fmt roots = [] ∧
    Timer.Report durStr false fmt t = [] := by
  refine ⟨by simp [New], ?_, by simp [ReportAll], by simp [Timer.Report]⟩
  cases t with
  | mk n tot cnt cs => simp [Timer.LogDuration]

/-- C10: while `Active` is false, `New` returns a nil timer with a nil
error for every name and parent (empty or duplicate names included),
`MustNew` returns nil without panicking, and no `New` call with the flag
false can produce an error — hence the two creation errors only arise
while the flag is true. -/
theorem inactive_new_nil (name name' : String) (parent p' : Option String)
    (s s' : Registry) (e : NewErr) :
    New false name parent s = (.ok none, s) ∧
    MustNew false name parent s = (some none, s) ∧
    (New false name' p' s').1 ≠ .err e := by
  refine ⟨by simp [New], by simp [MustNew], by simp [New]⟩

/-- C3 counterexample: the claim's activity notion ("nonzero accumulated
total") disagrees with the code.  A root timer whose total is the nonzero
value -1 (reachable because negative durations are silently accepted)
has a nonzero total in its subtree, yet `Report` emits nothing, because
`hasActivity` tests `TotalElapsed > 0`, not `!= 0`. -/
theorem report_nonzero_activity_cx :
    Timer.Report durStr0 true .PlainText (.mk "r" (-1) 1 []) = [] ∧
    ∃ p ∈ preorderLev (Timer.mk "r" (-1) 1 []) 0, p.1.totalElapsed ≠ 0 := by
  refine ⟨by decide, ⟨(Timer.mk "r" (-1) 1 [], 0), ?_, by decide⟩⟩
  have h : preorderLev (Timer.mk "r" (-1) 1 []) 0 = [(Timer.mk "r" (-1) 1 [], 0)] := rfl
  rw [h]
  exact List.mem_singleton.mpr rfl

/-- C3 (amended): `Report` and `ReportAll` emit output for a root's
subtree exactly when the subtree has activity, where activity means a
strictly positive accumulated total in the timer or some descendant
(for non-negative logged durations this coincides with "nonzero"); within
an active root, every node of the subtree is printed — one row per
preorder node, inactive interior nodes and siblings included — so only
whole root subtrees are ever filtered out. -/
theorem report_activity_filter (durStr : Int → String) (fmt : Format) (t : Timer)
    (roots : List Timer) :
    (Timer.Report durStr true fmt t = [] ↔
      ¬ ∃ p ∈ preorderLev t 0, 0 < p.1.totalElapsed) ∧
    (ReportAll durStr true fmt roots =
      roots.flatMap (fun r =>
        if (preorderLev r 0).any (fun p => decide (0 < p.1.totalElapsed)) then
          r.report durStr fmt 0 (allLengths durStr roots)
        else [])) ∧
    (∀ rLen : reportLen,
      (t.report durStr fmt 0 rLen).length = headerOverhead fmt + (preorderLev t 0).length) := by
  refine ⟨?_, ?_, fun rLen => report_block_length durStr fmt rLen t⟩
  · rw [← hasActivity_iff t]
    by_cases hact : t.hasActivity
    · have hne : t.report durStr fmt 0 (t.calculateLengths durStr reportLen.zero 0) ≠ [] := by
        intro hnil
        have := report_block_length durStr fmt (t.calculateLengths durStr reportLen.zero 0) t
        rw [hnil] at this
        have hpos := preorderLev_length_pos t 0
        simp at this
        omega
      simp [Timer.Report, hact, hne]
    · have hactf : t.hasActivity = false := by simpa using hact
      simp [Timer.Report, hact, hactf]
  · simp only [ReportAll, Bool.not_true, if_neg, Bool.false_eq_true, not_false_iff]
    refine List.flatMap_congr (fun r _ => ?_)
    rw [reportWithFormatting_eq_if, hasActivity_eq_any r 0]

/-- C8: all three formats emit their data rows in the identical order: the
depth-first, node-before-children, children-in-creation-order traversal
`preorderLev`; the formats differ only in the per-row rendering function
(and in the fixed header/border lines around the rows). -/
theorem formats_same_traversal (durStr : Int → String) (rLen : reportLen) (t : Timer) :
    t.reportCSV durStr 0 = csvHeader :: (preorderLev t 0).map (fun p => csvRow durStr p.1) ∧
    t.reportPlainText durStr 0 rLen =
      (preorderLev t 0).map (fun p => plainRow durStr rLen p.1 p.2) ∧
    t.reportTable durStr 0 rLen =
      rulerLine (labelMax rLen) :: tableHeaderRow (labelMax rLen) ::
        rulerLine (labelMax rLen) ::
          ((preorderLev t 0).map (fun p => tableRow durStr (labelMax rLen) p.1 p.2) ++
            [rulerLine (labelMax rLen)]) := by
  refine ⟨?_, plain_lines durStr rLen t 0, table_lines_zero durStr t rLen⟩
  simp [csv_lines durStr t 0]

/-- C4: a row for a timer with a zero call count shows no average in any
of the three formats — the CSV average field is empty, the plain-text
`", avg ..."` suffix is absent, and the table average cell is blank
padding — and the guarded quotient `TotalElapsed / CalledTimes` is never
formed for such a row, so no division by zero occurs. -/
theorem zero_calls_blank_average (durStr : Int → String) (rLen : reportLen) (t : Timer)
    (lev : Nat) (h : t.calledTimes = 0) :
    csvRow durStr t =
      t.name ++ ";" ++ durStr t.totalElapsed ++ ";" ++ toString t.calledTimes ++ ";" ∧
    plainRow durStr rLen t lev =
      leader rLen t lev ++ "total " ++ padLeft rLen.totalLen (durStr t.totalElapsed) ++
        " in " ++ padLeft rLen.callsLen (toString t.calledTimes) ++ " calls" ∧
    tableRow durStr rLen t lev =
      "| " ++ leader rLen t lev ++ "| " ++ padLeft rLen.totalLen (durStr t.totalElapsed) ++
        " | " ++ padLeft rLen.callsLen (toString t.calledTimes) ++ " | " ++
        spaces rLen.avgLen ++ " |" := by
  refine ⟨?_, ?_, ?_⟩
  · simp [csvRow, h, String.append_empty]
  · simp [plainRow, h, String.append_empty]
  · simp [tableRow, h, padLeft, String.append_empty]

/-- Witness for C4 at a concrete timer with seven nanoseconds logged as a
total but a zero call count. -/
theorem zero_calls_blank_average_witness :
    (Timer.mk "t" 7 0 []).calledTimes = 0 ∧
    (csvRow durStr0 (Timer.mk "t" 7 0 []) =
      (Timer.mk "t" 7 0 []).name ++ ";" ++ durStr0 (Timer.mk "t" 7 0 []).totalElapsed ++ ";" ++
        toString (Timer.mk "t" 7 0 []).calledTimes ++ ";" ∧
      plainRow durStr0 reportLen.zero (Timer.mk "t" 7 0 []) 0 =
        leader reportLen.zero (Timer.mk "t" 7 0 []) 0 ++ "total " ++
          padLeft reportLen.zero.totalLen (durStr0 (Timer.mk "t" 7 0 []).totalElapsed) ++
          " in " ++ padLeft reportLen.zero.callsLen (toString (Timer.mk "t" 7 0 []).calledTimes) ++
          " calls" ∧
      tableRow durStr0 reportLen.zero (Timer.mk "t" 7 0 []) 0 =
        "| " ++ leader reportLen.zero (Timer.mk "t" 7 0 []) 0 ++ "| " ++
          padLeft reportLen.zero.totalLen (durStr0 (Timer.mk "t" 7 0 []).totalElapsed) ++
          " | " ++ padLeft reportLen.zero.callsLen (toString (Timer.mk "t" 7 0 []).calledTimes) ++
          " | " ++ spaces reportLen.zero.avgLen ++ " |") :=
  ⟨by decide, zero_calls_blank_average durStr0 reportLen.zero (Timer.mk "t" 7 0 []) 0 (by decide)⟩

/-- C5 counterexample: the claim extends monotonicity to "every duration
argument that LogDuration tolerates, including a negative one", but an
enabled `LogDuration` call with duration -1 on a fresh timer strictly
decreases the accumulated total (0 to -1). -/
theorem logDuration_negative_cx :
    (Timer.LogDuration true (newTimer "t") (-1)).totalElapsed <
      (newTimer "t").totalElapsed := by decide

/-- C5 (amended): both counters start at zero at creation; as long as the
respective counter does not overflow `int64`, the call count is
monotonically non-decreasing under every tolerated duration argument
(negative ones included), and the accumulated total is monotonically
non-decreasing provided the logged durations are non-negative.  A negative
duration is silently accepted but decreases the total, and an `int64`
overflow wraps the counter. -/
theorem accumulation_monotone (t : Timer) (d : Int) (ds : List Int) (name : String) :
    (newTimer name).totalElapsed = 0 ∧ (newTimer name).calledTimes = 0 ∧
    (-9223372036854775808 ≤ t.calledTimes → t.calledTimes + 1 < 9223372036854775808 →
      t.calledTimes ≤ (t.LogDuration true d).calledTimes) ∧
    (0 ≤ t.calledTimes → t.calledTimes + ds.length < 9223372036854775808 →
      t.calledTimes ≤ (ds.foldl (fun a x => a.LogDuration true x) t).calledTimes) ∧
    (0 ≤ d → -9223372036854775808 ≤ t.totalElapsed →
      t.totalElapsed + d < 9223372036854775808 →
      t.totalElapsed ≤ (t.LogDuration true d).totalElapsed) ∧
    ((∀ x ∈ ds, 0 ≤ x) → -9223372036854775808 ≤ t.totalElapsed →
      t.totalElapsed + ds.sum < 9223372036854775808 →
      t.totalElapsed ≤ (ds.foldl (fun a x => a.LogDuration true x) t).totalElapsed) := by
  refine ⟨rfl, rfl, ?_, ?_, ?_, ?_⟩
  · intro h1 h2
    cases t with
    | mk n tot cnt cs =>
      simp only [Timer.calledTimes] at h1 h2 ⊢
      simp only [logDuration_mk, Timer.calledTimes]
      rw [wrap64_eq_self _ (by omega) (by omega)]
      omega
  · intro h1 h2
    rw [logDuration_foldl_count ds t (by omega) (by omega),
      wrap64_eq_self _ (by omega) (by omega)]
    omega
  · intro hd h1 h2
    cases t with
    | mk n tot cnt cs =>
      simp only [Timer.totalElapsed] at h1 h2 ⊢
      simp only [logDuration_mk, Timer.totalElapsed]
      rw [wrap64_eq_self _ (by omega) (by omega)]
      omega
  · intro hds h1 h2
    have hsum : 0 ≤ ds.sum := List.sum_nonneg hds
    rw [logDuration_foldl_total ds t (by omega) (by omega),
      wrap64_eq_self _ (by omega) (by omega)]
    omega

/-- Witness for C5 at concrete inputs discharging the non-negativity and
no-overflow hypotheses of all four monotonicity conjuncts. -/
theorem accumulation_monotone_witness :
    ((Timer.mk "w" 4 2 []).calledTimes ≤
        ((Timer.mk "w" 4 2 []).LogDuration true 2).calledTimes ∧
      (Timer.mk "w" 4 2 []).calledTimes ≤
        (([3] : List Int).foldl (fun a x => a.LogDuration true x)
          (Timer.mk "w" 4 2 [])).calledTimes) ∧
    (Timer.mk "w" 4 2 []).totalElapsed ≤
        ((Timer.mk "w" 4 2 []).LogDuration true 2).totalElapsed ∧
    (Timer.mk "w" 4 2 []).totalElapsed ≤
        (([3] : List Int).foldl (fun a x => a.LogDuration true x)
          (Timer.mk "w" 4 2 [])).totalElapsed :=
  ⟨⟨(accumulation_monotone (Timer.mk "w" 4 2 []) 2 [3] "w").2.2.1 (by decide) (by decide),
      (accumulation_monotone (Timer.mk "w" 4 2 []) 2 [3] "w").2.2.2.1 (by decide) (by decide)⟩,
    (accumulation_monotone (Timer.mk "w" 4 2 []) 2 [3] "w").2.2.2.2.1
      (by decide) (by decide) (by decide),
    (accumulation_monotone (Timer.mk "w" 4 2 []) 2 [3] "w").2.2.2.2.2
      (by decide) (by decide) (by decide)⟩

/-- C6 counterexample: an active root `"a"` with an inactive child whose
name is ten characters long.  Both nodes are printed by `ReportAll` (the
CSV report has a header plus two data lines), and the maximum of
`2*depth + name length` over these reportable nodes is 12, yet the
pre-pass computes `leaderLen = 1`: the inactive child is pruned from the
width pass even though its row is emitted. -/
theorem widths_reportable_cx :
    (allLengths durStr0 [Timer.mk "a" 5 1 [Timer.mk "bbbbbbbbbb" 0 0 []]]).leaderLen = 1 ∧
    ((preorderLev (Timer.mk "a" 5 1 [Timer.mk "bbbbbbbbbb" 0 0 []]) 0).map
        (fun p => p.2 * 2 + p.1.name.length)).foldl max 0 = 12 ∧
    (ReportAll durStr0 true .CSV [Timer.mk "a" 5 1 [Timer.mk "bbbbbbbbbb" 0 0 []]]).length = 3 := by
  refine ⟨by decide, by decide, by decide⟩

/-- C6 (amended): before emitting any row, one `ReportAll` call computes
the four column widths as maxima in a single pass over the nodes *with
activity* of all root subtrees (a printed node whose own subtree has no
activity does not contribute), the average width only over such nodes
with a nonzero call count, and this one `reportLen` is then used for
every row of the entire multi-root report, across unrelated trees. -/
theorem widths_shared_maxima (durStr : Int → String) (fmt : Format) (roots : List Timer) :
    (allLengths durStr roots).leaderLen =
      ((roots.flatMap (fun r => activeNodes r 0)).map
        (fun p => p.2 * 2 + p.1.name.length)).foldl max 0 ∧
    (allLengths durStr roots).totalLen =
      ((roots.flatMap (fun r => activeNodes r 0)).map
        (fun p => (durStr p.1.totalElapsed).length)).foldl max 0 ∧
    (allLengths durStr roots).callsLen =
      ((roots.flatMap (fun r => activeNodes r 0)).map
        (fun p => (toString p.1.calledTimes).length)).foldl max 0 ∧
    (allLengths durStr roots).avgLen =
      ((((roots.flatMap (fun r => activeNodes r 0)).filter
          (fun p => decide (0 < p.1.calledTimes))).map
        (fun p => (durStr p.1.avgElapsed).length)).foldl max 0) ∧
    ReportAll durStr true fmt roots =
      roots.flatMap (fun r =>
        if r.hasActivity then r.report durStr fmt 0 (allLengths durStr roots) else []) := by
  refine ⟨?_, ?_, ?_, ?_, ?_⟩
  · rw [allLengths_eq, foldl_lenStep_leaderLen, foldl_max_map]
    rfl
  · rw [allLengths_eq, foldl_lenStep_totalLen, foldl_max_map]
    rfl
  · rw [allLengths_eq, foldl_lenStep_callsLen, foldl_max_map]
    rfl
  · rw [allLengths_eq, foldl_lenStep_avgLen, foldl_max_filter]
    rfl
  · simp only [ReportAll, Bool.not_true, if_neg, Bool.false_eq_true, not_false_iff]
    exact List.flatMap_congr (fun r _ => reportWithFormatting_eq_if durStr fmt r _)

/-- C7 counterexample: a `ReportAll` in CSV format over two active roots
emits the header line once per root — two header lines in total, not
exactly one. -/
theorem csv_single_header_cx :
    ReportAll durStr0 true .CSV [Timer.mk "a" 1 1 [], Timer.mk "b" 1 1 []] =
      ["Timer;Total;Calls;Average", "a;1;1;1", "Timer;Total;Calls;Average", "b;1;1;1"] ∧
    (ReportAll durStr0 true .CSV [Timer.mk "a" 1 1 [], Timer.mk "b" 1 1 []]).count
        "Timer;Total;Calls;Average" = 2 := by
  refine ⟨by decide, by decide⟩

/-- C7 (amended): in CSV format, one report invocation emits, for each
active root, one header line that is exactly `Timer;Total;Calls;Average`
followed by one semicolon-delimited data line per timer of that root's
subtree, of the form name;total;calls;average-or-empty, with no
indentation and no width padding; a `ReportAll` over several active roots
therefore repeats the header once per root (a single-root report has
exactly one header line). -/
theorem csv_report_shape (durStr : Int → String) (roots : List Timer) (t : Timer) :
    ReportAll durStr true .CSV roots =
      roots.flatMap (fun r =>
        if r.hasActivity then
          csvHeader :: (preorderLev r 0).map (fun p => csvRow durStr p.1)
        else []) ∧
    csvRow durStr t =
      t.name ++ ";" ++ durStr t.totalElapsed ++ ";" ++ toString t.calledTimes ++ ";" ++
        (if 0 < t.calledTimes then durStr t.avgElapsed else "") := by
  refine ⟨?_, rfl⟩
  simp only [ReportAll, Bool.not_true, if_neg, Bool.false_eq_true, not_false_iff]
  refine List.flatMap_congr (fun r _ => ?_)
  rw [reportWithFormatting_eq_if]
  cases hr : r.hasActivity
  · simp
  · simp only [if_true]
    simp [Timer.report, csv_lines durStr r 0]
